import Mathlib

/-!
# Verification of the sentiment-analysis core of `app.py`

Shallow embedding of the Twitter_Analysis repository (single source file
`app.py`).  Strings are modelled as `List Char`.  The pre-fit vectorizer and
classifier are opaque loaded artifacts, modelled as function parameters: the
vectorizer maps a normalized string to an abstract feature vector and the
classifier maps a feature vector to a class index (`model.predict` on a
one-element batch, read back as a scalar `Nat`).  Python float division in the
percentage computation is modelled over `ℚ`, with `none` standing for the
`ZeroDivisionError` that `/` raises on a zero denominator.
-/

namespace TwitterAnalysis

/-- Character test of the regex class `[^a-zA-Z]` used in
`re.sub('[^a-zA-Z]', ' ', text)` (app.py line 27), phrased on code points:
65–90 are `A`–`Z` and 97–122 are `a`–`z`.  `isAsciiLetter c` is true exactly
when the regex does not replace `c`. -/
def isAsciiLetter (c : Char) : Bool :=
  (65 ≤ c.toNat && c.toNat ≤ 90) || (97 ≤ c.toNat && c.toNat ≤ 122)

/-- Step `text = re.sub('[^a-zA-Z]', ' ', text)` of `predict_sentiment`
(app.py line 27): every character outside the ASCII letter ranges is replaced
by one space character. -/
def subNonLetters (s : List Char) : List Char :=
  s.map (fun c => if isAsciiLetter c then c else ' ')

/-- Lowercasing of one character, as Python `str.lower()` acts on the
post-substitution alphabet (ASCII letters and spaces, the only characters that
survive line 27): an uppercase code point is shifted by 32, every other
character is unchanged. -/
def lowerChar (c : Char) : Char :=
  if 65 ≤ c.toNat && c.toNat ≤ 90 then Char.ofNat (c.toNat + 32) else c

/-- Step `text = text.lower()` of `predict_sentiment` (app.py line 28). -/
def lowerAll (s : List Char) : List Char :=
  s.map lowerChar

/-- Step `text = text.split()` of `predict_sentiment` (app.py line 29): Python
`str.split()` with no argument skips leading whitespace and returns the maximal
runs of non-whitespace characters, never producing an empty token.  At this
point of the pipeline the only whitespace character that can occur is `' '`,
because line 27 replaced every other character (including tabs and newlines)
by a space. -/
def pySplit (s : List Char) : List (List Char) :=
  match s with
  | [] => []
  | c :: cs =>
    if c = ' ' then pySplit cs
    else (c :: cs.takeWhile (fun d => d ≠ ' ')) :: pySplit (cs.dropWhile (fun d => d ≠ ' '))
termination_by s.length
decreasing_by
  · simp only [List.length_cons]
    omega
  · simp only [List.length_cons]
    exact Nat.lt_succ_of_le (List.dropWhile_sublist _).length_le

/-- Step `text = ' '.join(text)` of `predict_sentiment` (app.py line 31). -/
def joinSp (ts : List (List Char)) : List Char :=
  List.intercalate [' '] ts

/-- Tokens surviving the stopword filter
`text = [word for word in text if word not in stop_words]` (app.py line 30),
applied to the split of the lowercased, letter-only text. -/
def keptTokens (s : List Char) (stop_words : List (List Char)) : List (List Char) :=
  (pySplit (lowerAll (subNonLetters s))).filter (fun w => w ∉ stop_words)

/-- Normalization step of `predict_sentiment` (app.py lines 27–31): replace
non-letters by spaces, lowercase, split on whitespace, drop stopwords, rejoin
with single spaces. -/
def normalize (s : List Char) (stop_words : List (List Char)) : List Char :=
  joinSp (keptTokens s stop_words)

/-- Return value `"Positive"` of `predict_sentiment` (app.py line 37). -/
def positiveLabel : List Char := "Positive".data

/-- Return value `"Negative"` of `predict_sentiment` (app.py line 37). -/
def negativeLabel : List Char := "Negative".data

/-- Function `predict_sentiment(text, model, vectorizer, stop_words)`
(app.py lines 25–37): normalize the text, wrap it as a one-element batch for
`vectorizer.transform`, feed the feature vector to `model.predict`, and map
class index 0 to `"Negative"` and any other index to `"Positive"`
(`return "Negative" if sentiment == 0 else "Positive"`). -/
def predict_sentiment {V : Type} (text : List Char) (model : V → Nat)
    (vectorizer : List Char → V) (stop_words : List (List Char)) : List Char :=
  if model (vectorizer (normalize text stop_words)) = 0 then negativeLabel
  else positiveLabel

/-- Python `/` on numbers, over `ℚ`: raises `ZeroDivisionError` on a zero
denominator, modelled as `none`. -/
def pyDiv (a b : ℚ) : Option ℚ :=
  if b = 0 then none else some (a / b)

/-- Result of the inline batch aggregation of `main` (app.py lines 115–125 in
demo mode, identically lines 182–193 in fetch mode): the per-tweet sentiment
list built in input order, the `list.count` of each label, `len(sentiments)`,
and the two percentages `(count / total_count) * 100`. -/
structure AggregateSummary where
  sentiments : List (List Char)
  positive_count : Nat
  negative_count : Nat
  total_count : Nat
  positive_percentage : Option ℚ
  negative_percentage : Option ℚ
deriving Repr, DecidableEq

/-- Inline batch aggregation of `main` (app.py lines 115–125 and 182–193),
parametrized by the single-text predictor it applies (in the program, always
`predict_sentiment` with the loaded artifacts). -/
def aggregate (predictor : List Char → List Char) (texts : List (List Char)) :
    AggregateSummary :=
  let sentiments := texts.map predictor
  { sentiments := sentiments
    positive_count := sentiments.count positiveLabel
    negative_count := sentiments.count negativeLabel
    total_count := sentiments.length
    positive_percentage :=
      (pyDiv (sentiments.count positiveLabel) (sentiments.length)).map (fun q => q * 100)
    negative_percentage :=
      (pyDiv (sentiments.count negativeLabel) (sentiments.length)).map (fun q => q * 100) }

/-- Validation message `st.error("Please enter a Twitter username")`
(app.py line 167). -/
def pleaseEnterMsg : List Char := "Please enter a Twitter username".data

/-- Outcome of the `Fetch Tweets` button handler before any network call
(app.py lines 164–175): either the empty-username validation error, or an
invocation of `scraper.get_tweets(username, mode='user', number=num_tweets)`
with the given arguments. -/
inductive FetchAction where
  | validationError (msg : List Char)
  | fetch (username : List Char) (num : Nat)
deriving Repr, DecidableEq

/-- Step `username = username.lstrip('@')` (app.py line 170): remove every
leading `@`. -/
def lstripAtSign (s : List Char) : List Char :=
  s.dropWhile (fun c => c = '@')

/-- Control flow of the `Fetch Tweets` button handler (app.py lines 164–175):
`if not username:` shows the validation error (a Python string is falsy exactly
when it is empty); otherwise the leading `@`s are stripped and
`scraper.get_tweets` is invoked with the stripped username. -/
def fetchStep (username : List Char) (num_tweets : Nat) : FetchAction :=
  if username = [] then FetchAction.validationError pleaseEnterMsg
  else FetchAction.fetch (lstripAtSign username) num_tweets

/-- Outcome of the `scraper.get_tweets` call as seen by the surrounding code
(app.py lines 175–232): `success (some ts)` is a returned dict holding the
tweet texts under the key `'tweets'`; `success none` is a falsy return or a
dict without a `'tweets'` key; `failure e` is a raised exception with message
`e`. -/
inductive FetchResult where
  | success (tweetsField : Option (List (List Char)))
  | failure (msg : List Char)
deriving Repr, DecidableEq

/-- Warning `st.warning(f"No tweets found for @{username}. ...")`
(app.py line 229). -/
def noTweetsMsg (username : List Char) : List Char :=
  "No tweets found for @".data ++ username ++
    ". Please check if the username is correct and the account has public tweets.".data

/-- Error `st.error(f"An error occurred while fetching tweets: {str(e)}")`
(app.py line 233). -/
def fetchErrorMsg (e : List Char) : List Char :=
  "An error occurred while fetching tweets: ".data ++ e

/-- Observable outcome of the fetch-and-analyze block (app.py lines 174–241):
either the batch aggregation ran on the fetched tweets, or a user-visible
warning (no-tweets path, line 229) or error (exception path, line 233) was
shown and no aggregation happened. -/
inductive HandlerOutcome where
  | analyzed (summary : AggregateSummary)
  | warned (msg : List Char)
  | errored (msg : List Char)
deriving Repr, DecidableEq

/-- Handling of the fetch outcome (app.py lines 174–241): the guard
`if tweets_data and 'tweets' in tweets_data and len(tweets_data['tweets']) > 0:`
runs the aggregation only on a non-empty tweet list; its `else` shows the
no-tweets warning; `except Exception as e:` shows the fetch error message. -/
def handleFetch (predictor : List Char → List Char) (username : List Char) :
    FetchResult → HandlerOutcome
  | FetchResult.success (some tweets) =>
    if tweets.length > 0 then HandlerOutcome.analyzed (aggregate predictor tweets)
    else HandlerOutcome.warned (noTweetsMsg username)
  | FetchResult.success none => HandlerOutcome.warned (noTweetsMsg username)
  | FetchResult.failure e => HandlerOutcome.errored (fetchErrorMsg e)

/-- Character test for lowercase ASCII letters (code points 97–122), used to
state the character-class invariant of the normalizer output. -/
def isLowerAlpha (c : Char) : Bool :=
  97 ≤ c.toNat && c.toNat ≤ 122

/-- Shape predicate on the normalizer output: no two adjacent characters are
both spaces, i.e. spaces occur only singly. -/
def singleSpaced (s : List Char) : Prop :=
  List.Chain' (fun a b => ¬(a = ' ' ∧ b = ' ')) s

/-! ## Basic facts about the labels and the predictor -/

theorem labels_ne : positiveLabel ≠ negativeLabel := by decide

theorem labels_ne' : negativeLabel ≠ positiveLabel := by decide

theorem predict_sentiment_mem_labels {V : Type} (t : List Char) (model : V → Nat)
    (vectorizer : List Char → V) (stop_words : List (List Char)) :
    predict_sentiment t model vectorizer stop_words = positiveLabel ∨
      predict_sentiment t model vectorizer stop_words = negativeLabel := by
  unfold predict_sentiment
  split
  · exact Or.inr rfl
  · exact Or.inl rfl

theorem count_labels_eq_length (l : List (List Char))
    (h : ∀ x ∈ l, x = positiveLabel ∨ x = negativeLabel) :
    l.count positiveLabel + l.count negativeLabel = l.length := by
  induction l with
  | nil => simp
  | cons a l ih =>
    have ih2 := ih (fun x hx => h x (List.mem_cons_of_mem a hx))
    rcases h a (List.mem_cons_self a l) with rfl | rfl
    · rw [List.count_cons_self, List.count_cons_of_ne labels_ne', List.length_cons]
      omega
    · rw [List.count_cons_self, List.count_cons_of_ne labels_ne, List.length_cons]
      omega

/-! ## Character-level lemmas for the normalizer -/

theorem toNat_charOfNat (n : Nat) (h : n < 55296) : (Char.ofNat n).toNat = n := by
  have hv : n.isValidChar := Or.inl h
  unfold Char.ofNat
  rw [dif_pos hv]
  rfl

theorem lowerChar_space : lowerChar ' ' = ' ' := by decide

theorem lowerChar_of_upper (c : Char) (h1 : 65 ≤ c.toNat) (h2 : c.toNat ≤ 90) :
    (lowerChar c).toNat = c.toNat + 32 := by
  have hcond : (65 ≤ c.toNat && c.toNat ≤ 90) = true := by
    simp only [Bool.and_eq_true, decide_eq_true_eq]
    exact ⟨h1, h2⟩
  unfold lowerChar
  rw [if_pos hcond]
  exact toNat_charOfNat _ (by omega)

theorem lowerChar_of_not_upper (c : Char) (h : ¬(65 ≤ c.toNat ∧ c.toNat ≤ 90)) :
    lowerChar c = c := by
  have hcond : ¬((65 ≤ c.toNat && c.toNat ≤ 90) = true) := by
    simpa only [Bool.and_eq_true, decide_eq_true_eq] using h
  unfold lowerChar
  rw [if_neg hcond]

theorem mem_subNonLetters (s : List Char) (c : Char) (hc : c ∈ subNonLetters s) :
    c = ' ' ∨ isAsciiLetter c = true := by
  unfold subNonLetters at hc
  obtain ⟨d, _, hd⟩ := List.mem_map.mp hc
  by_cases h : isAsciiLetter d = true
  · rw [if_pos h] at hd
    right
    rw [← hd]
    exact h
  · rw [if_neg h] at hd
    left
    exact hd.symm

theorem mem_lowerAll (s : List Char) (c : Char) (hc : c ∈ lowerAll s)
    (hs : ∀ d ∈ s, d = ' ' ∨ isAsciiLetter d = true) :
    c = ' ' ∨ isLowerAlpha c = true := by
  unfold lowerAll at hc
  obtain ⟨d, hd, rfl⟩ := List.mem_map.mp hc
  rcases hs d hd with rfl | hletter
  · exact Or.inl lowerChar_space
  · simp only [isAsciiLetter, Bool.or_eq_true, Bool.and_eq_true, decide_eq_true_eq] at hletter
    rcases hletter with ⟨h1, h2⟩ | ⟨h1, h2⟩
    · right
      have hl := lowerChar_of_upper d h1 h2
      simp only [isLowerAlpha, Bool.and_eq_true, decide_eq_true_eq]
      omega
    · right
      rw [lowerChar_of_not_upper d (by omega)]
      simp only [isLowerAlpha, Bool.and_eq_true, decide_eq_true_eq]
      omega

theorem subNonLetters_eq_self (s : List Char)
    (h : ∀ c ∈ s, c = ' ' ∨ isLowerAlpha c = true) : subNonLetters s = s := by
  unfold subNonLetters
  conv_rhs => rw [← List.map_id s]
  apply List.map_congr_left
  intro a ha
  rcases h a ha with rfl | hl
  · rw [if_neg (by decide)]
    rfl
  · have hletter : isAsciiLetter a = true := by
      simp only [isLowerAlpha, Bool.and_eq_true, decide_eq_true_eq] at hl
      simp only [isAsciiLetter, Bool.or_eq_true, Bool.and_eq_true, decide_eq_true_eq]
      omega
    rw [if_pos hletter]
    rfl

theorem lowerAll_eq_self (s : List Char)
    (h : ∀ c ∈ s, c = ' ' ∨ isLowerAlpha c = true) : lowerAll s = s := by
  unfold lowerAll
  conv_rhs => rw [← List.map_id s]
  apply List.map_congr_left
  intro a ha
  rcases h a ha with rfl | hl
  · exact lowerChar_space
  · apply lowerChar_of_not_upper
    simp only [isLowerAlpha, Bool.and_eq_true, decide_eq_true_eq] at hl
    omega

/-! ## Lemmas about the tokenizer `pySplit` and the joiner `joinSp` -/

theorem pySplit_nil : pySplit [] = [] := by
  rw [pySplit]

theorem pySplit_space_cons (s : List Char) : pySplit (' ' :: s) = pySplit s := by
  rw [pySplit]
  simp

theorem pySplit_cons_of_ne (c : Char) (cs : List Char) (h : ¬ c = ' ') :
    pySplit (c :: cs) =
      (c :: cs.takeWhile (fun d => d ≠ ' ')) :: pySplit (cs.dropWhile (fun d => d ≠ ' ')) := by
  rw [pySplit]
  simp [h]

theorem pySplit_tokens (s : List Char) :
    ∀ t ∈ pySplit s, t ≠ [] ∧ ∀ c ∈ t, ¬ c = ' ' ∧ c ∈ s := by
  induction s using pySplit.induct with
  | case1 =>
    intro t ht
    rw [pySplit_nil] at ht
    exact absurd ht (List.not_mem_nil t)
  | case2 cs ih =>
    intro t ht
    rw [pySplit_space_cons] at ht
    obtain ⟨hne, hc⟩ := ih t ht
    exact ⟨hne, fun c hcc => ⟨(hc c hcc).1, List.mem_cons_of_mem _ (hc c hcc).2⟩⟩
  | case3 c cs hc ih =>
    intro t ht
    rw [pySplit_cons_of_ne c cs hc] at ht
    rcases List.mem_cons.mp ht with rfl | hmem
    · refine ⟨by simp, ?_⟩
      intro d hd
      rcases List.mem_cons.mp hd with rfl | hd2
      · exact ⟨hc, List.mem_cons_self _ _⟩
      · constructor
        · simpa using List.mem_takeWhile_imp hd2
        · exact List.mem_cons_of_mem _ ((List.takeWhile_sublist _).subset hd2)
    · obtain ⟨hne, hprop⟩ := ih t hmem
      refine ⟨hne, fun d hd => ⟨(hprop d hd).1, ?_⟩⟩
      exact List.mem_cons_of_mem _ ((List.dropWhile_sublist _).subset (hprop d hd).2)

theorem pySplit_token_append (t rest : List Char) (ht : t ≠ [])
    (hsp : ∀ c ∈ t, ¬ c = ' ') :
    pySplit (t ++ ' ' :: rest) = t :: pySplit rest := by
  obtain ⟨a, t', rfl⟩ : ∃ a t', t = a :: t' := by
    cases t with
    | nil => exact absurd rfl ht
    | cons a t' => exact ⟨a, t', rfl⟩
  have ha : ¬ a = ' ' := hsp a (List.mem_cons_self a t')
  have hall : ∀ d ∈ t', (fun d => decide (d ≠ ' ')) d = true := by
    intro d hd
    simpa using hsp d (List.mem_cons_of_mem a hd)
  rw [List.cons_append, pySplit_cons_of_ne a _ ha,
    List.takeWhile_append_of_pos hall, List.dropWhile_append_of_pos hall]
  have h1 : List.takeWhile (fun d => decide (d ≠ ' ')) (' ' :: rest) = [] := by
    rw [List.takeWhile_cons]
    simp
  have h2 : List.dropWhile (fun d => decide (d ≠ ' ')) (' ' :: rest) = ' ' :: rest := by
    rw [List.dropWhile_cons]
    simp
  rw [h1, h2, List.append_nil, pySplit_space_cons]

theorem pySplit_token_alone (t : List Char) (ht : t ≠ [])
    (hsp : ∀ c ∈ t, ¬ c = ' ') :
    pySplit t = [t] := by
  obtain ⟨a, t', rfl⟩ : ∃ a t', t = a :: t' := by
    cases t with
    | nil => exact absurd rfl ht
    | cons a t' => exact ⟨a, t', rfl⟩
  have ha : ¬ a = ' ' := hsp a (List.mem_cons_self a t')
  have hall : ∀ d ∈ t', (fun d => decide (d ≠ ' ')) d = true := by
    intro d hd
    simpa using hsp d (List.mem_cons_of_mem a hd)
  rw [pySplit_cons_of_ne a t' ha, List.takeWhile_eq_self_iff.mpr hall,
    List.dropWhile_eq_nil_iff.mpr hall, pySplit_nil]

theorem joinSp_nil : joinSp [] = [] := rfl

theorem joinSp_singleton (t : List Char) : joinSp [t] = t := by
  simp [joinSp, List.intercalate]

theorem joinSp_cons₂ (a b : List Char) (ts : List (List Char)) :
    joinSp (a :: b :: ts) = a ++ ' ' :: joinSp (b :: ts) := by
  simp [joinSp, List.intercalate]

theorem mem_joinSp (ts : List (List Char)) (c : Char) :
    c ∈ joinSp ts → c = ' ' ∨ ∃ t ∈ ts, c ∈ t := by
  induction ts with
  | nil =>
    intro hc
    rw [joinSp_nil] at hc
    exact absurd hc (List.not_mem_nil c)
  | cons a ts ih =>
    intro hc
    cases ts with
    | nil =>
      rw [joinSp_singleton] at hc
      exact Or.inr ⟨a, List.mem_cons_self a [], hc⟩
    | cons b ts2 =>
      rw [joinSp_cons₂] at hc
      rcases List.mem_append.mp hc with h | h
      · exact Or.inr ⟨a, List.mem_cons_self _ _, h⟩
      · rcases List.mem_cons.mp h with rfl | h2
        · exact Or.inl rfl
        · rcases ih h2 with h3 | ⟨t, ht, hct⟩
          · exact Or.inl h3
          · exact Or.inr ⟨t, List.mem_cons_of_mem _ ht, hct⟩

theorem pySplit_joinSp (ts : List (List Char))
    (h : ∀ t ∈ ts, t ≠ [] ∧ ∀ c ∈ t, ¬ c = ' ') :
    pySplit (joinSp ts) = ts := by
  induction ts with
  | nil => rw [joinSp_nil, pySplit_nil]
  | cons a ts ih =>
    obtain ⟨ha_ne, ha_sp⟩ := h a (List.mem_cons_self _ _)
    cases ts with
    | nil =>
      rw [joinSp_singleton]
      exact pySplit_token_alone a ha_ne ha_sp
    | cons b ts2 =>
      rw [joinSp_cons₂, pySplit_token_append a _ ha_ne ha_sp,
        ih (fun t ht => h t (List.mem_cons_of_mem _ ht))]

theorem head?_joinSp_cons (a : List Char) (ts : List (List Char)) (ha : a ≠ []) :
    (joinSp (a :: ts)).head? = a.head? := by
  obtain ⟨x, a', rfl⟩ : ∃ x a', a = x :: a' := by
    cases a with
    | nil => exact absurd rfl ha
    | cons x a' => exact ⟨x, a', rfl⟩
  cases ts with
  | nil => rw [joinSp_singleton]
  | cons b ts2 =>
    rw [joinSp_cons₂]
    rfl

theorem chain'_of_no_space (t : List Char) (h : ∀ c ∈ t, ¬ c = ' ') :
    List.Chain' (fun a b => ¬(a = ' ' ∧ b = ' ')) t := by
  induction t with
  | nil => exact List.chain'_nil
  | cons a t ih =>
    rw [List.chain'_cons']
    refine ⟨?_, ih (fun c hc => h c (List.mem_cons_of_mem a hc))⟩
    intro y _ hcontra
    exact h a (List.mem_cons_self a t) hcontra.1

theorem singleSpaced_joinSp (ts : List (List Char))
    (h : ∀ t ∈ ts, t ≠ [] ∧ ∀ c ∈ t, ¬ c = ' ') :
    singleSpaced (joinSp ts) := by
  induction ts with
  | nil =>
    rw [joinSp_nil]
    exact List.chain'_nil
  | cons a ts ih =>
    obtain ⟨ha_ne, ha_sp⟩ := h a (List.mem_cons_self _ _)
    cases ts with
    | nil =>
      rw [joinSp_singleton]
      exact chain'_of_no_space a ha_sp
    | cons b ts2 =>
      have hrest : ∀ t ∈ b :: ts2, t ≠ [] ∧ ∀ c ∈ t, ¬ c = ' ' :=
        fun t ht => h t (List.mem_cons_of_mem _ ht)
      obtain ⟨hb_ne, hb_sp⟩ := hrest b (List.mem_cons_self _ _)
      rw [joinSp_cons₂]
      unfold singleSpaced
      rw [List.chain'_append]
      refine ⟨chain'_of_no_space a ha_sp, ?_, ?_⟩
      · rw [List.chain'_cons']
        refine ⟨?_, ih hrest⟩
        intro y hy hcontra
        rw [head?_joinSp_cons b ts2 hb_ne] at hy
        exact hb_sp y (List.mem_of_mem_head? hy) hcontra.2
      · intro x hx y _ hcontra
        exact ha_sp x (List.mem_of_getLast?_eq_some hx) hcontra.1

/-! ## Invariants of the normalizer output -/

theorem keptTokens_spec (s : List Char) (sw : List (List Char)) :
    ∀ t ∈ keptTokens s sw, (t ≠ [] ∧ ∀ c ∈ t, ¬ c = ' ') ∧ t ∉ sw ∧
      ∀ c ∈ t, c ∈ lowerAll (subNonLetters s) := by
  intro t ht
  unfold keptTokens at ht
  obtain ⟨hmem, hdec⟩ := List.mem_filter.mp ht
  have hsw : t ∉ sw := by simpa using hdec
  obtain ⟨hne, hprop⟩ := pySplit_tokens _ t hmem
  exact ⟨⟨hne, fun c hc => (hprop c hc).1⟩, hsw, fun c hc => (hprop c hc).2⟩

theorem normalize_chars (s : List Char) (sw : List (List Char)) :
    ∀ c ∈ normalize s sw, c = ' ' ∨ isLowerAlpha c = true := by
  intro c hc
  unfold normalize at hc
  rcases mem_joinSp _ c hc with rfl | ⟨t, ht, hct⟩
  · exact Or.inl rfl
  · exact mem_lowerAll _ c ((keptTokens_spec s sw t ht).2.2 c hct)
      (fun d hd => mem_subNonLetters s d hd)

theorem normalize_singleSpaced (s : List Char) (sw : List (List Char)) :
    singleSpaced (normalize s sw) := by
  unfold normalize
  exact singleSpaced_joinSp _ (fun t ht => (keptTokens_spec s sw t ht).1)

theorem pySplit_normalize (s : List Char) (sw : List (List Char)) :
    pySplit (normalize s sw) = keptTokens s sw := by
  unfold normalize
  exact pySplit_joinSp _ (fun t ht => (keptTokens_spec s sw t ht).1)

/-! ## Claim theorems: predictor and aggregation -/

/-- C2: for every input string, under the precondition that the classifier
returns a class index in `{0, 1}`, `predict_sentiment` returns `"Negative"`
if and only if the classifier output is 0 and `"Positive"` if and only if the
classifier output is 1. -/
theorem predict_label_mapping {V : Type} (text : List Char) (model : V → Nat)
    (vectorizer : List Char → V) (stop_words : List (List Char))
    (h : model (vectorizer (normalize text stop_words)) = 0 ∨
         model (vectorizer (normalize text stop_words)) = 1) :
    (predict_sentiment text model vectorizer stop_words = negativeLabel ↔
      model (vectorizer (normalize text stop_words)) = 0) ∧
    (predict_sentiment text model vectorizer stop_words = positiveLabel ↔
      model (vectorizer (normalize text stop_words)) = 1) := by
  unfold predict_sentiment
  rcases h with h | h <;> rw [h] <;> simp [labels_ne, labels_ne']

theorem predict_label_mapping_witness :
    (predict_sentiment [] (fun _ : Unit => 0) (fun _ => ()) [] = negativeLabel ↔
      (0 : Nat) = 0) ∧
    (predict_sentiment [] (fun _ : Unit => 0) (fun _ => ()) [] = positiveLabel ↔
      (0 : Nat) = 1) :=
  predict_label_mapping [] (fun _ => 0) (fun _ => ()) [] (Or.inl rfl)

/-- C5: `predict_sentiment` is deterministic: two calls on equal input strings
with the same fixed vectorizer, classifier and stopword set return the same
label (the function is pure, with no hidden state). -/
theorem predict_deterministic {V : Type} (t₁ t₂ : List Char) (model : V → Nat)
    (vectorizer : List Char → V) (stop_words : List (List Char)) (h : t₁ = t₂) :
    predict_sentiment t₁ model vectorizer stop_words =
      predict_sentiment t₂ model vectorizer stop_words := by
  rw [h]

theorem predict_deterministic_witness :
    predict_sentiment ['a'] (fun _ : Unit => 0) (fun _ => ()) [] =
      predict_sentiment ['a'] (fun _ : Unit => 0) (fun _ => ()) [] :=
  predict_deterministic ['a'] ['a'] (fun _ => 0) (fun _ => ()) [] rfl

/-- C6: `predict_sentiment` applied to the empty string (with loaded, total
vectorizer, classifier and stopword artifacts) returns a valid label, one of
`"Positive"` or `"Negative"`, without raising. -/
theorem predict_empty_valid_label {V : Type} (model : V → Nat)
    (vectorizer : List Char → V) (stop_words : List (List Char)) :
    predict_sentiment [] model vectorizer stop_words = positiveLabel ∨
      predict_sentiment [] model vectorizer stop_words = negativeLabel :=
  predict_sentiment_mem_labels [] model vectorizer stop_words

/-- C3: for every ordered sequence of texts of length `n`, the batch
aggregation returns exactly `n` classification results whose order matches the
input order (the sentiment list is the input-order map of the predictor), and
`positive_count + negative_count = n = total_count`. -/
theorem aggregate_order_and_counts {V : Type} (model : V → Nat)
    (vectorizer : List Char → V) (stop_words : List (List Char))
    (texts : List (List Char)) :
    (aggregate (fun t => predict_sentiment t model vectorizer stop_words) texts).sentiments =
      texts.map (fun t => predict_sentiment t model vectorizer stop_words) ∧
    (aggregate (fun t => predict_sentiment t model vectorizer stop_words) texts).sentiments.length =
      texts.length ∧
    (aggregate (fun t => predict_sentiment t model vectorizer stop_words) texts).positive_count +
      (aggregate (fun t => predict_sentiment t model vectorizer stop_words) texts).negative_count =
      texts.length ∧
    (aggregate (fun t => predict_sentiment t model vectorizer stop_words) texts).total_count =
      texts.length := by
  refine ⟨rfl, by simp [aggregate], ?_, by simp [aggregate]⟩
  have hmem : ∀ x ∈ texts.map (fun t => predict_sentiment t model vectorizer stop_words),
      x = positiveLabel ∨ x = negativeLabel := by
    intro x hx
    obtain ⟨t, _, rfl⟩ := List.mem_map.mp hx
    exact predict_sentiment_mem_labels t model vectorizer stop_words
  have := count_labels_eq_length _ hmem
  simpa [aggregate] using this

/-- C4 counterexample: the inline aggregation, applied to the empty sequence,
reports `total_count = 0` but its percentage computation divides by zero
(`(positive_count / total_count) * 100` raises `ZeroDivisionError` in Python,
modelled as `none`); in particular the percentages are not 0. -/
theorem aggregate_empty_divides_by_zero :
    (aggregate (fun _ => positiveLabel) []).total_count = 0 ∧
    (aggregate (fun _ => positiveLabel) []).positive_percentage = none ∧
    (aggregate (fun _ => positiveLabel) []).negative_percentage = none ∧
    (aggregate (fun _ => positiveLabel) []).positive_percentage ≠ some 0 ∧
    (aggregate (fun _ => positiveLabel) []).negative_percentage ≠ some 0 := by
  refine ⟨rfl, ?_, ?_, ?_, ?_⟩ <;> simp [aggregate, pyDiv]

/-- C4 (amended): aggregation applied to the empty sequence reports
`total_count = 0` but divides by zero computing the percentages; for every
non-empty sequence of texts the division is defined and the percentages are
`count / total * 100`. -/
theorem aggregate_nonempty_percentages_defined (predictor : List Char → List Char)
    (texts : List (List Char)) (h : texts ≠ []) :
    (aggregate predictor texts).total_count = texts.length ∧
    (aggregate predictor texts).positive_percentage =
      some (((texts.map predictor).count positiveLabel : ℚ) / (texts.length : ℚ) * 100) ∧
    (aggregate predictor texts).negative_percentage =
      some (((texts.map predictor).count negativeLabel : ℚ) / (texts.length : ℚ) * 100) := by
  have hz : ((texts.length : ℚ)) ≠ 0 := by
    rw [Nat.cast_ne_zero]
    intro hlen
    exact h (List.length_eq_zero.mp hlen)
  refine ⟨by simp [aggregate], ?_, ?_⟩ <;>
    simp [aggregate, pyDiv, hz]

theorem aggregate_nonempty_percentages_defined_witness :
    (aggregate (fun _ => positiveLabel) [['h','i']]).total_count = [['h','i']].length ∧
    (aggregate (fun _ => positiveLabel) [['h','i']]).positive_percentage =
      some ((([['h','i']].map (fun _ => positiveLabel)).count positiveLabel : ℚ) /
        ([['h','i']].length : ℚ) * 100) ∧
    (aggregate (fun _ => positiveLabel) [['h','i']]).negative_percentage =
      some ((([['h','i']].map (fun _ => positiveLabel)).count negativeLabel : ℚ) /
        ([['h','i']].length : ℚ) * 100) :=
  aggregate_nonempty_percentages_defined (fun _ => positiveLabel) [['h','i']] (by simp)

/-- C1: for every input string and every stopword set, the normalization step
inside `predict_sentiment` produces a string containing only lowercase ASCII
letters and single spaces (no two adjacent spaces), and no token of the result
is a member of the stopword set. -/
theorem normalize_output_invariant (s : List Char) (stop_words : List (List Char)) :
    (∀ c ∈ normalize s stop_words, c = ' ' ∨ isLowerAlpha c = true) ∧
    singleSpaced (normalize s stop_words) ∧
    (∀ t ∈ pySplit (normalize s stop_words), t ∉ stop_words) := by
  refine ⟨normalize_chars s stop_words, normalize_singleSpaced s stop_words, ?_⟩
  intro t ht
  rw [pySplit_normalize] at ht
  exact (keptTokens_spec s stop_words t ht).2.1

/-- C9: the normalization step is idempotent: for every string and every
stopword set whose members are lowercase, normalizing the normalized output
again (non-letter removal, lowercasing, whitespace split, stopword filter,
space rejoin) yields the same string as normalizing once. -/
theorem normalize_idempotent (s : List Char) (stop_words : List (List Char))
    (_hsw : ∀ w ∈ stop_words, ∀ c ∈ w, isLowerAlpha c = true) :
    normalize (normalize s stop_words) stop_words = normalize s stop_words := by
  have hchars := normalize_chars s stop_words
  show joinSp (keptTokens (normalize s stop_words) stop_words) = normalize s stop_words
  unfold keptTokens
  rw [subNonLetters_eq_self _ hchars, lowerAll_eq_self _ hchars, pySplit_normalize,
    List.filter_eq_self.mpr (fun t ht => by
      simpa using (keptTokens_spec s stop_words t ht).2.1)]
  rfl

theorem normalize_idempotent_witness :
    normalize (normalize " Hello, the WORLD!! ".data [['t','h','e']]) [['t','h','e']] =
      normalize " Hello, the WORLD!! ".data [['t','h','e']] :=
  normalize_idempotent " Hello, the WORLD!! ".data [['t','h','e']] (by decide)

/-! ## Claim theorems: fetch control flow -/

/-- C7: when a fetch is requested with an empty username, the handler shows the
validation error message and the fetch collaborator `scraper.get_tweets` is
never invoked (the resulting action is not a fetch for any arguments). -/
theorem empty_username_rejected (num_tweets : Nat) :
    fetchStep [] num_tweets = FetchAction.validationError pleaseEnterMsg ∧
    ∀ u n, fetchStep [] num_tweets ≠ FetchAction.fetch u n := by
  constructor
  · rfl
  · intro u n hcontra
    rw [fetchStep, if_pos rfl] at hcontra
    exact FetchAction.noConfusion hcontra

/-- C10: for every non-empty username consisting only of `@` characters, the
emptiness validation passes (it runs before the `@`-stripping) and the fetch
collaborator is invoked with the empty string as username. -/
theorem at_only_username_fetches_empty (u : List Char) (num_tweets : Nat)
    (h1 : u ≠ []) (h2 : ∀ c ∈ u, c = '@') :
    fetchStep u num_tweets = FetchAction.fetch [] num_tweets := by
  unfold fetchStep
  rw [if_neg h1]
  have : lstripAtSign u = [] := by
    unfold lstripAtSign
    rw [List.dropWhile_eq_nil_iff]
    intro x hx
    simp [h2 x hx]
  rw [this]

theorem at_only_username_fetches_empty_witness :
    fetchStep ['@', '@'] 10 = FetchAction.fetch [] 10 :=
  at_only_username_fetches_empty ['@', '@'] 10 (by simp) (by decide)

/-- C8: for every fetch outcome that is a transport failure (exception) or an
empty result set, the program does not crash: the outcome is handled at the
call site into a user-visible warning or error message, and the batch
aggregation does not run. -/
theorem fetch_failure_or_empty_handled (predictor : List Char → List Char)
    (username : List Char) (r : FetchResult)
    (h : (∃ e, r = FetchResult.failure e) ∨ r = FetchResult.success none ∨
         r = FetchResult.success (some [])) :
    (∀ s, handleFetch predictor username r ≠ HandlerOutcome.analyzed s) ∧
    (∃ msg, handleFetch predictor username r = HandlerOutcome.warned msg ∨
            handleFetch predictor username r = HandlerOutcome.errored msg) := by
  rcases h with ⟨e, rfl⟩ | rfl | rfl
  · exact ⟨fun s => by simp [handleFetch], fetchErrorMsg e, Or.inr rfl⟩
  · exact ⟨fun s => by simp [handleFetch], noTweetsMsg username, Or.inl rfl⟩
  · exact ⟨fun s => by simp [handleFetch], noTweetsMsg username, Or.inl (by simp [handleFetch])⟩

theorem fetch_failure_or_empty_handled_witness :
    (∀ s, handleFetch id [] (FetchResult.success none) ≠ HandlerOutcome.analyzed s) ∧
    (∃ msg, handleFetch id [] (FetchResult.success none) = HandlerOutcome.warned msg ∨
            handleFetch id [] (FetchResult.success none) = HandlerOutcome.errored msg) :=
  fetch_failure_or_empty_handled id [] (FetchResult.success none) (Or.inr (Or.inl rfl))

end TwitterAnalysis
